import Mathlib

/-!
Verification of the karaoke-app repository (Express server + documented
ingestion pipeline).

The server code (`server.js`, `db.js`) is embedded shallowly: JavaScript
numbers are modelled as `JsNum` (a rational or NaN; the routes only ever
feed `Number(...)` results into the clamping helper), strings as Lean
`String`, the possibly-diverging pagination loop as a fuel-indexed
function where `none` models non-termination, and exceptions as `Except`.

The documented ingestion pipeline (eligibility filter, segmentation,
rights state machine, orchestrator) lives in `scripts/karaoke_pipeline.py`,
which is referenced by the repository's README and architecture documents
but is not part of the source tree here; those components are modelled
from the specification text, as marked on each definition.
-/

/-- A JavaScript number as the server routes observe it: either NaN
(e.g. `Number(undefined)` for an absent query parameter) or a finite
value, modelled as a rational.  (`±Infinity` does not arise in the claims
settled here.) -/
inductive JsNum where
  | nan : JsNum
  | num (q : ℚ) : JsNum
deriving DecidableEq

/-- `clampSongTarget` from `server.js`: `if (Number.isNaN(target)) return min;
return Math.min(Math.max(target, min), max);` with `min = 100`, `max = 800`. -/
def clampSongTarget : JsNum → ℚ
  | .nan => 100
  | .num q => min (max q 100) 800

example : clampSongTarget (.num 50) = 100 := by
  simp [clampSongTarget]
  norm_num

example : clampSongTarget .nan = 100 := rfl

example : clampSongTarget (.num 900) = 800 := by
  simp [clampSongTarget]
  norm_num

example : clampSongTarget (.num 300) = 300 := by
  simp only [clampSongTarget]
  norm_num

/-- `pat` matches at the very start of the second list. -/
def startsWith : List Char → List Char → Bool
  | [], _ => true
  | _ :: _, [] => false
  | p :: ps, c :: cs => p = c && startsWith ps cs

/-- JavaScript `String.prototype.includes`: `pat` occurs contiguously
somewhere in the second list. -/
def containsSub (pat : List Char) : List Char → Bool
  | [] => startsWith pat []
  | c :: cs => startsWith pat (c :: cs) || containsSub pat cs

/-- Strip `pat` from the front of the second list, returning the remainder. -/
def dropPat : List Char → List Char → Option (List Char)
  | [], s => some s
  | _ :: _, [] => none
  | p :: ps, c :: cs => if p = c then dropPat ps cs else none

/-- The literal `list=` that the server's regular expression looks for. -/
def listEqChars : List Char := ['l', 'i', 's', 't', '=']

/-- Attempt the `list=([^&#]+)` part of the regex right after a `?` or `&`:
requires the literal `list=` and then a nonempty maximal run of characters
other than `&` and `#` (the capture group). -/
def captureAt (rest : List Char) : Option (List Char) :=
  match dropPat listEqChars rest with
  | none => none
  | some after =>
    let cap := after.takeWhile (fun c => !(c = '&' || c = '#'))
    if cap.isEmpty then none else some cap

/-- First match of `/[?&]list=([^&#]+)/` (no global flag): scan for the
earliest position where a `?` or `&` is followed by `list=` and a nonempty
capture; return the capture group. -/
def firstListMatch : List Char → Option (List Char)
  | [] => none
  | c :: cs =>
    if c = '?' || c = '&' then
      match captureAt cs with
      | some cap => some cap
      | none => firstListMatch cs
    else firstListMatch cs

/-- Numeric value of a hexadecimal digit. -/
def hexVal (c : Char) : Option ℕ :=
  if '0' ≤ c ∧ c ≤ '9' then some (c.toNat - '0'.toNat)
  else if 'a' ≤ c ∧ c ≤ 'f' then some (c.toNat - 'a'.toNat + 10)
  else if 'A' ≤ c ∧ c ≤ 'F' then some (c.toNat - 'A'.toNat + 10)
  else none

/-- The byte encoded by a `%XY` escape, when both digits are hex. -/
def hexByte (a b : Char) : Option ℕ :=
  match hexVal a, hexVal b with
  | some hi, some lo => some (16 * hi + lo)
  | _, _ => none

/-- Valid range of the second byte of a 3-byte UTF-8 sequence (lower
bound; `0xE0` forbids overlong encodings). -/
def cont3Lo (b1 : ℕ) : ℕ := if b1 = 0xE0 then 0xA0 else 0x80

/-- Valid range of the second byte of a 3-byte UTF-8 sequence (upper
bound; `0xED` forbids surrogate code points). -/
def cont3Hi (b1 : ℕ) : ℕ := if b1 = 0xED then 0x9F else 0xBF

/-- Valid range of the second byte of a 4-byte UTF-8 sequence (lower
bound; `0xF0` forbids overlong encodings). -/
def cont4Lo (b1 : ℕ) : ℕ := if b1 = 0xF0 then 0x90 else 0x80

/-- Valid range of the second byte of a 4-byte UTF-8 sequence (upper
bound; `0xF4` forbids code points beyond `U+10FFFF`). -/
def cont4Hi (b1 : ℕ) : ℕ := if b1 = 0xF4 then 0x8F else 0xBF

/-- One element of the ECMAScript Decode scan: a character copied through
unchanged, or the byte contributed by a `%XY` escape. -/
inductive DecTok where
  | raw (c : Char)
  | byte (b : ℕ)
deriving DecidableEq

/-- First pass of `decodeURIComponent`: every `%` must start a `%XY`
escape (two hex digits), contributing its byte; any other character is
copied through.  A truncated or non-hex escape is a `URIError` (`none`). -/
def tokenize : List Char → Option (List DecTok)
  | [] => some []
  | c :: rest =>
    if c = '%' then
      match rest with
      | a :: b :: rest₂ =>
        match hexByte a b with
        | some v => (tokenize rest₂).map (DecTok.byte v :: ·)
        | none => none
      | _ => none
    else (tokenize rest).map (DecTok.raw c :: ·)

/-- Second pass of `decodeURIComponent`: a copied character stands for
itself; a byte below `0x80` decodes alone; a leading byte of a 2-, 3- or
4-byte UTF-8 sequence must be followed by that many escape bytes within
the ranges of Unicode's well-formed UTF-8 table (so overlong encodings,
surrogates, code points beyond `U+10FFFF`, and stray or truncated
continuations are rejected).  Any invalid sequence is a `URIError`
(`none`), which the ECMAScript Decode operation throws. -/
def decodeToks : List DecTok → Option (List Char)
  | [] => some []
  | .raw c :: rest => (decodeToks rest).map (c :: ·)
  | .byte b1 :: rest =>
    if b1 < 0x80 then
      (decodeToks rest).map (Char.ofNat b1 :: ·)
    else if 0xC2 ≤ b1 ∧ b1 ≤ 0xDF then
      match rest with
      | .byte v2 :: rest₂ =>
        if 0x80 ≤ v2 ∧ v2 ≤ 0xBF then
          (decodeToks rest₂).map
            (Char.ofNat ((b1 - 0xC0) * 0x40 + (v2 - 0x80)) :: ·)
        else none
      | _ => none
    else if 0xE0 ≤ b1 ∧ b1 ≤ 0xEF then
      match rest with
      | .byte v2 :: .byte v3 :: rest₃ =>
        if cont3Lo b1 ≤ v2 ∧ v2 ≤ cont3Hi b1 ∧ 0x80 ≤ v3 ∧ v3 ≤ 0xBF then
          (decodeToks rest₃).map
            (Char.ofNat ((b1 - 0xE0) * 0x1000 + (v2 - 0x80) * 0x40 +
              (v3 - 0x80)) :: ·)
        else none
      | _ => none
    else if 0xF0 ≤ b1 ∧ b1 ≤ 0xF4 then
      match rest with
      | .byte v2 :: .byte v3 :: .byte v4 :: rest₄ =>
        if cont4Lo b1 ≤ v2 ∧ v2 ≤ cont4Hi b1 ∧
            0x80 ≤ v3 ∧ v3 ≤ 0xBF ∧ 0x80 ≤ v4 ∧ v4 ≤ 0xBF then
          (decodeToks rest₄).map
            (Char.ofNat ((b1 - 0xF0) * 0x40000 + (v2 - 0x80) * 0x1000 +
              (v3 - 0x80) * 0x40 + (v4 - 0x80)) :: ·)
        else none
      | _ => none
    else none

/-- Model of `decodeURIComponent` (the ECMAScript Decode operation):
scan the input turning each `%XY` escape into its byte, then decode the
byte runs as well-formed UTF-8, copying unescaped characters through;
`none` is the thrown `URIError`. -/
def percentDecode (l : List Char) : Option (List Char) :=
  (tokenize l).bind decodeToks

/-- The character class `String.prototype.trim` strips: ECMAScript
WhiteSpace (TAB, VT, FF, SP, NBSP, ZWNBSP and the Unicode
space-separator category) and LineTerminator (LF, CR, LS, PS). -/
def jsWhitespaceChar (c : Char) : Bool :=
  decide (c.toNat = 0x9 ∨ c.toNat = 0xA ∨ c.toNat = 0xB ∨ c.toNat = 0xC ∨
    c.toNat = 0xD ∨ c.toNat = 0x20 ∨ c.toNat = 0xA0 ∨ c.toNat = 0x1680 ∨
    (0x2000 ≤ c.toNat ∧ c.toNat ≤ 0x200A) ∨ c.toNat = 0x2028 ∨
    c.toNat = 0x2029 ∨ c.toNat = 0x202F ∨ c.toNat = 0x205F ∨
    c.toNat = 0x3000 ∨ c.toNat = 0xFEFF)

/-- JavaScript `String.prototype.trim` (strip surrounding whitespace),
implemented structurally over the character list. -/
def jsTrim (s : String) : String :=
  String.mk (((s.data.dropWhile jsWhitespaceChar).reverse.dropWhile
    jsWhitespaceChar).reverse)

/-- The exception `decodeURIComponent` throws on a malformed escape. -/
inductive URIError where
  | malformed : URIError
deriving DecidableEq

/-- `extractPlaylistId` from `server.js`:
`if (!rawValue) return ''; if (rawValue.includes('list=')) { const match =
rawValue.match(/[?&]list=([^&#]+)/); return match ?
decodeURIComponent(match[1]) : rawValue.trim(); } return rawValue.trim();`
A `URIError` escaping from `decodeURIComponent` is modelled as `.error`. -/
def extractPlaylistId (rawValue : String) : Except URIError String :=
  if rawValue = "" then .ok ""
  else if containsSub listEqChars rawValue.data then
    match firstListMatch rawValue.data with
    | some cap =>
      match percentDecode cap with
      | some ds => .ok (String.mk ds)
      | none => .error .malformed
    | none => .ok (jsTrim rawValue)
  else .ok (jsTrim rawValue)

example : extractPlaylistId "" = .ok "" := rfl
example : extractPlaylistId " PLabc " = .ok "PLabc" := rfl
example : extractPlaylistId "https://www.youtube.com/playlist?list=PL2vNB" = .ok "PL2vNB" := rfl
example : extractPlaylistId "?list=&x" = .ok "?list=&x" := rfl
example : extractPlaylistId "?list=a%20b&rest" = .ok "a b" := rfl
example : extractPlaylistId "list=abc" = .ok "list=abc" := rfl
example : extractPlaylistId "?list=%ZZ" = .error .malformed := rfl
example : extractPlaylistId "?list=%C3%A9" = .ok "é" := rfl
example : extractPlaylistId "?list=%FF" = .error .malformed := rfl
example : extractPlaylistId "?list=%ED%A0%80" = .error .malformed := rfl
example : extractPlaylistId "?list=%C0%AF" = .error .malformed := rfl
example : extractPlaylistId "?list=%F4%90%80%80" = .error .malformed := rfl
example : extractPlaylistId "?list=%F0%9F%8E%A4" = .ok "🎤" := rfl
example : extractPlaylistId "?list=%C3" = .error .malformed := rfl
example : jsTrim "x ﻿" = "x" := rfl

/-- A raw playlist item inside a YouTube Data API page, holding the three
paths the server reads: `it.contentDetails.videoId`, `it.snippet.title`,
`it.snippet.position`. -/
structure RawItem where
  contentDetailsVideoId : String
  snippetTitle : String
  snippetPosition : ℕ
deriving DecidableEq

/-- The record built by `resp.data.items.map((it) => ({ videoId: ...,
title: ..., position: ... }))` in `fetchPlaylistItemsFromYouTube`
(`server.js`): it has exactly the keys `videoId`, `title`, `position`. -/
structure MappedItem where
  videoId : String
  title : String
  position : ℕ
deriving DecidableEq

/-- The key set of the object literal built by the mapping step in
`fetchPlaylistItemsFromYouTube` (`server.js`), in source order. -/
def mappedItemFields : List String := ["videoId", "title", "position"]

/-- An entry of the `SAMPLE_PLAYLIST` fallback array in `server.js`:
object literals with exactly the keys `videoId` and `title`. -/
structure SampleItem where
  videoId : String
  title : String
deriving DecidableEq

/-- The key set of each `SAMPLE_PLAYLIST` object literal, in source order. -/
def sampleItemFields : List String := ["videoId", "title"]

/-- The `SAMPLE_PLAYLIST` constant from `server.js`. -/
def SAMPLE_PLAYLIST : List SampleItem :=
  [⟨"3JZ_D3ELwOQ", "Californication - Red Hot Chili Peppers"⟩,
   ⟨"hTWKbfoikeg", "Smells Like Teen Spirit - Nirvana"⟩,
   ⟨"kXYiU_JCYtU", "Numb - Linkin Park"⟩,
   ⟨"ktvTqknDobU", "In the End - Linkin Park"⟩]

/-- One upstream page request (`axios.get` on the playlistItems URL):
either a response with its item array and optional `nextPageToken` (a
falsy token is `none`), or a rejected promise (network/auth failure). -/
inductive PageResp where
  | ok (items : List RawItem) (nextPageToken : Option String)
  | err
deriving DecidableEq

/-- The per-item mapping applied to every fetched page in `server.js`. -/
def mapItem (it : RawItem) : MappedItem :=
  ⟨it.contentDetailsVideoId, it.snippetTitle, it.snippetPosition⟩

/-- The failure the playlist fetch surfaces (the thrown error that the
route's `catch` turns into a 500). -/
inductive FetchErr where
  | fetchError
deriving DecidableEq

/-- `Array.prototype.slice(0, end)` bound: JavaScript truncates the end
argument to an integer.  The server only ever passes the clamped target
(`100 ≤ target ≤ 800`), so truncation toward zero coincides with the
floor computed here. -/
def jsSliceBound (q : ℚ) : ℕ := q.num.toNat / q.den

/-- The `while (items.length < targetCount)` pagination loop of
`fetchPlaylistItemsFromYouTube` (`server.js`), fuel-indexed: `none` models
a run that has not terminated within `fuel` page requests.  The `while`
condition is checked before any fuel is consumed, mirroring the loop; both
exits return `items.slice(0, targetCount)`. -/
def fetchGo (u : String → PageResp) (target : ℚ) :
    ℕ → String → List MappedItem → Option (Except FetchErr (List MappedItem))
  | fuel, tok, acc =>
    if (acc.length : ℚ) < target then
      match fuel with
      | 0 => none
      | fuel₀ + 1 =>
        match u tok with
        | .err => some (.error .fetchError)
        | .ok its next =>
          let acc₂ := acc ++ its.map mapItem
          match next with
          | none => some (.ok (acc₂.take (jsSliceBound target)))
          | some t =>
            if target ≤ (acc₂.length : ℚ) then
              some (.ok (acc₂.take (jsSliceBound target)))
            else
              fetchGo u target fuel₀ t acc₂
    else
      some (.ok (acc.take (jsSliceBound target)))

/-- The two shapes of item list the fetch helper can hand to the route:
the sample fallback (no API key) or mapped API items. -/
inductive FetchOutput where
  | sample (items : List SampleItem)
  | fetched (items : List MappedItem)
deriving DecidableEq

/-- `fetchPlaylistItemsFromYouTube(playlistId, targetCount)` from
`server.js`: without an API key it immediately returns `SAMPLE_PLAYLIST`;
with a key it runs the pagination loop from an empty accumulator and empty
page token.  The playlist id only affects the request URL, not the control
flow, so the upstream function `u` already incorporates it. -/
def fetchPlaylistItemsFromYouTube (hasApiKey : Bool) (u : String → PageResp)
    (target : ℚ) (fuel : ℕ) : Option (Except FetchErr FetchOutput) :=
  if hasApiKey then
    (fetchGo u target fuel "" []).map (fun r => r.map FetchOutput.fetched)
  else
    some (.ok (.sample SAMPLE_PLAYLIST))

/-- The JSON responses of `GET /api/playlist` (`server.js`): `okNoQuery`
is the early `{playlistId: 'SAMPLE', items: SAMPLE_PLAYLIST, ...}` return
for an empty playlist query, `ok` carries the normal response fields, and
`serverError` is the catch-all `500 {error: 'Failed to fetch playlist'}`. -/
inductive PlaylistResponse where
  | okNoQuery
  | ok (playlistId : String) (items : FetchOutput) (requested : ℚ) (fallback : Bool)
  | serverError
deriving DecidableEq

/-- The items a caller of `GET /api/playlist` receives, if any. -/
def responseItems : PlaylistResponse → Option FetchOutput
  | .okNoQuery => some (.sample SAMPLE_PLAYLIST)
  | .ok _ items _ _ => some items
  | .serverError => none

/-- The `app.get('/api/playlist', ...)` handler from `server.js`: extract
the playlist id from the query (a thrown `URIError` lands in the catch),
clamp `maxSongs`, early-return the sample response on an empty id, then
fetch; any thrown error produces the 500 response. -/
def apiPlaylistHandler (hasApiKey : Bool) (u : String → PageResp)
    (playlistQuery : String) (maxSongs : JsNum) (fuel : ℕ) :
    Option PlaylistResponse :=
  match extractPlaylistId playlistQuery with
  | .error _ => some .serverError
  | .ok requested =>
    if requested = "" then some .okNoQuery
    else
      match fetchPlaylistItemsFromYouTube hasApiKey u (clampSongTarget maxSongs) fuel with
      | none => none
      | some (.error _) => some .serverError
      | some (.ok out) =>
        some (.ok requested out (clampSongTarget maxSongs) (!hasApiKey))

/-- The mapped items of the first `n` pages reached by following
`nextPageToken` links from `tok`, concatenated in page (hence playlist)
order. -/
def chainItems (u : String → PageResp) : ℕ → String → List MappedItem
  | 0, _ => []
  | n + 1, tok =>
    match u tok with
    | .err => []
    | .ok its next =>
      its.map mapItem ++
        (match next with
         | none => []
         | some t => chainItems u n t)

example :
    fetchPlaylistItemsFromYouTube false (fun _ => .err) 100 0 =
      some (.ok (.sample SAMPLE_PLAYLIST)) := rfl

example :
    fetchPlaylistItemsFromYouTube true
      (fun t => if t = "" then .ok [⟨"v1", "t1", 0⟩] none else .err) 100 3 =
      some (.ok (.fetched [⟨"v1", "t1", 0⟩])) := rfl

example :
    fetchPlaylistItemsFromYouTube true
      (fun t => if t = "" then .ok [⟨"v1", "t1", 0⟩] (some "p2") else .err) 100 3 =
      some (.error .fetchError) := rfl

/-- A row of the `songs` table created in `db.js` (`videoId TEXT PRIMARY
KEY, snippetStart INTEGER DEFAULT 0, snippetLength INTEGER DEFAULT 30,
lyrics TEXT DEFAULT ''`).  Numeric cells are rationals, since the server
binds whatever JSON numbers arrive. -/
structure SongRow where
  videoId : String
  snippetStart : ℚ
  snippetLength : ℚ
  lyrics : String
deriving DecidableEq

/-- The songs store, keyed by `videoId` (the primary key keeps at most one
row per id). -/
abbrev SongStore : Type := List (String × SongRow)

/-- `getSong` from `db.js`: `SELECT * FROM songs WHERE videoId = ?`,
`stmt.get` returning the row or `undefined`. -/
def getSong (store : SongStore) (videoId : String) : Option SongRow :=
  (store.find? (fun p => p.1 == videoId)).map (fun p => p.2)

/-- Responses of `GET /api/song/:videoId` (`server.js`): a JSON row on the
happy path, or the catch branch's `500 {error: 'Failed to fetch song'}` —
reachable only if the database driver itself throws, an I/O failure
outside this pure model. -/
inductive SongResponse where
  | ok (row : SongRow)
  | serverError
deriving DecidableEq

/-- The `app.get('/api/song/:videoId', ...)` handler from `server.js`:
`res.json(row || { videoId, snippetStart: 0, snippetLength: 30,
lyrics: '' })`. -/
def apiSongGetHandler (store : SongStore) (videoId : String) : SongResponse :=
  match getSong store videoId with
  | some row => .ok row
  | none => .ok ⟨videoId, 0, 30, ""⟩

example : apiSongGetHandler [] "kXYiU_JCYtU" = .ok ⟨"kXYiU_JCYtU", 0, 30, ""⟩ := rfl

/-- Modelled from the spec: a `Candidate` record of the ingestion pipeline
(`scripts/karaoke_pipeline.py`, absent from the source tree):
`{source_id, title, uploader, duration_seconds, raw_audio_ref}`. -/
structure Candidate where
  source_id : String
  title : String
  uploader : String
  duration_seconds : ℚ
  raw_audio_ref : String
deriving DecidableEq

/-- Modelled from the spec: the rejection reasons of the Eligibility
Filter. -/
inductive RejectionReason where
  | DurationTooShort
  | LowVocalPresence
deriving DecidableEq

/-- Modelled from the spec: the outcome of an Eligibility Filter check. -/
inductive FilterDecision where
  | pass
  | reject (reason : RejectionReason)
deriving DecidableEq

/-- Modelled from the spec: `checkDuration(candidate) ->
pass|reject(DurationTooShort)`: reject if `duration_seconds < 40`;
deterministic, no I/O (the implementation, in the absent
`scripts/karaoke_pipeline.py`, enforces `duration ≥ 40s` before
download). -/
def checkDuration (c : Candidate) : FilterDecision :=
  if c.duration_seconds < 40 then .reject .DurationTooShort else .pass

example : checkDuration ⟨"a", "t", "u", 39, "r"⟩ = .reject .DurationTooShort := by
  simp [checkDuration]
  norm_num

example : checkDuration ⟨"a", "t", "u", 40, "r"⟩ = .pass := by
  simp [checkDuration]

/-- Modelled from the spec: a `Segment` record produced by the
Segmentation & Loop Engine (in the absent `scripts/karaoke_pipeline.py`):
`{start_sec, end_sec, crossfade_ms, bpm, key, loudness_lufs,
vocal_score}` with `key` one of the 12 pitch classes. -/
structure Segment where
  start_sec : ℚ
  end_sec : ℚ
  crossfade_ms : ℕ
  bpm : ℚ
  key : Fin 12
  loudness_lufs : ℚ
  vocal_score : ℚ
deriving DecidableEq

/-- Modelled from the spec: the Segmentation & Loop Engine emits a Segment
only for a chosen window of 40–60 s and a configured crossfade of
30–80 ms; any other combination is not emitted (the engine ranks only
40–60 s windows and the crossfade range is part of its configuration). -/
def mkSegment (startSec endSec : ℚ) (crossfadeMs : ℕ) (bpm : ℚ) (key : Fin 12)
    (loudnessLufs : ℚ) (vocalScore : ℚ) : Option Segment :=
  if 40 ≤ endSec - startSec ∧ endSec - startSec ≤ 60 ∧
      30 ≤ crossfadeMs ∧ crossfadeMs ≤ 80 then
    some ⟨startSec, endSec, crossfadeMs, bpm, key, loudnessLufs, vocalScore⟩
  else
    none

example : mkSegment 10 55 50 120 0 (-14) (1/2) =
    some ⟨10, 55, 50, 120, 0, -14, 1/2⟩ := by
  simp [mkSegment]
  norm_num

/-- Modelled from the spec: the license states of a `RightsRecord`
(`pending_clearance → {cleared, restricted, rejected}`). -/
inductive LicenseState where
  | pending_clearance
  | cleared
  | restricted
  | rejected
deriving DecidableEq

/-- Modelled from the spec: the events the rights-gated catalog reacts to.
`ingest`, `publish` and `unpublish` are steps of the core pipeline
(orchestrator); `setLicenseState` is the external manual-clearance action,
the only writer permitted to move a RightsRecord out of
`pending_clearance`. -/
inductive PipelineEvent where
  | ingest (source_id : String)
  | publish (source_id : String) (qa_pass : Bool)
  | unpublish (source_id : String)
  | setLicenseState (source_id : String) (state : LicenseState)
deriving DecidableEq

/-- Steps performed by the core itself; `setLicenseState` is external. -/
def isCoreEvent : PipelineEvent → Bool
  | .setLicenseState _ _ => false
  | _ => true

/-- Modelled from the spec: the cross-track shared state — the
RightsRecord store (license state per `source_id`) and the catalog of
published `source_id`s. -/
structure PipelineState where
  rights : List (String × LicenseState)
  catalog : List String
deriving DecidableEq

/-- License state currently on record for a `source_id`, if ingested. -/
def rightsOf (s : PipelineState) (id : String) : Option LicenseState :=
  (s.rights.find? (fun p => p.1 == id)).map (fun p => p.2)

/-- Whether a CatalogEntry for `source_id` currently exists. -/
def isPublished (s : PipelineState) (id : String) : Bool :=
  s.catalog.contains id

/-- Modelled from the spec: the effect of one event.  `ingest` creates the
RightsRecord in `pending_clearance` (the only initial state); `publish`
writes a CatalogEntry only when QA passed and the record reads `cleared`
at that moment (otherwise the publish is refused as a compliance
violation); `unpublish` retracts the entry; `setLicenseState` is the
external action mutating an existing record. -/
def applyEvent (s : PipelineState) : PipelineEvent → PipelineState
  | .ingest id =>
    if (rightsOf s id).isSome then s
    else { s with rights := (id, .pending_clearance) :: s.rights }
  | .publish id qa =>
    if qa && (rightsOf s id == some .cleared) && !(isPublished s id) then
      { s with catalog := id :: s.catalog }
    else s
  | .unpublish id =>
    { s with catalog := s.catalog.filter (fun x => x != id) }
  | .setLicenseState id st =>
    if (rightsOf s id).isSome then
      { s with rights := (id, st) :: s.rights.filter (fun p => p.1 != id) }
    else s

/-- Modelled from the spec: the reconciliation pass the orchestrator runs
each cycle — any published entry whose current license state is not
`cleared` is unpublished (rights downgrades retract their CatalogEntry
within one reconciliation cycle). -/
def reconcile (s : PipelineState) : PipelineState :=
  { s with catalog := s.catalog.filter (fun id => rightsOf s id == some .cleared) }

/-- One reconciliation cycle: process an event, then reconcile.  Reachable
system states are the states at cycle boundaries. -/
def cycleStep (s : PipelineState) (e : PipelineEvent) : PipelineState :=
  reconcile (applyEvent s e)

/-- The empty initial state: nothing ingested, nothing published. -/
def initState : PipelineState := ⟨[], []⟩

/-- State after a trace of events, one reconciliation cycle each. -/
def runPipeline (evs : List PipelineEvent) : PipelineState :=
  evs.foldl cycleStep initState

example :
    isPublished (runPipeline
      [.ingest "a", .setLicenseState "a" .cleared, .publish "a" true]) "a" = true := rfl

example :
    isPublished (runPipeline
      [.ingest "a", .setLicenseState "a" .cleared, .publish "a" true,
       .setLicenseState "a" .restricted]) "a" = false := rfl

example :
    rightsOf (runPipeline [.ingest "a", .publish "a" true]) "a" =
      some .pending_clearance := rfl

example : isPublished (runPipeline [.ingest "a", .publish "a" true]) "a" = false := rfl

/-- C8: for every input value, `clampSongTarget` returns a value in
[100, 800]: inputs below 100 are raised to 100, inputs above 800 are
lowered to 800, values in between are returned unchanged, and a NaN input
(absent or non-numeric `maxSongs` query parameter) yields 100. -/
theorem clampSongTarget_bounds (x : JsNum) :
    100 ≤ clampSongTarget x ∧ clampSongTarget x ≤ 800 ∧
    (∀ q : ℚ, x = .num q →
      (q < 100 → clampSongTarget x = 100) ∧
      (800 < q → clampSongTarget x = 800) ∧
      (100 ≤ q → q ≤ 800 → clampSongTarget x = q)) ∧
    clampSongTarget .nan = 100 := by
  refine ⟨?_, ?_, ?_, rfl⟩
  · cases x with
    | nan => norm_num [clampSongTarget]
    | num q =>
      exact le_min (le_max_right q 100) (by norm_num)
  · cases x with
    | nan => norm_num [clampSongTarget]
    | num q => exact min_le_right _ _
  · intro q hq
    subst hq
    refine ⟨fun h => ?_, fun h => ?_, fun h1 h2 => ?_⟩
    · simp only [clampSongTarget]
      rw [max_eq_right h.le, min_eq_left (by norm_num)]
    · simp only [clampSongTarget]
      rw [max_eq_left (by linarith), min_eq_right h.le]
    · simp only [clampSongTarget]
      rw [max_eq_left h1, min_eq_left h2]

/-- Witness for C8 at concrete inputs 50, 900, 300 and NaN. -/
theorem clampSongTarget_bounds_witness :
    clampSongTarget (.num 50) = 100 ∧ clampSongTarget (.num 900) = 800 ∧
    clampSongTarget (.num 300) = 300 ∧ clampSongTarget .nan = 100 ∧
    (100 : ℚ) ≤ clampSongTarget (.num 50) :=
  ⟨((clampSongTarget_bounds (.num 50)).2.2.1 50 rfl).1 (by norm_num),
   ((clampSongTarget_bounds (.num 900)).2.2.1 900 rfl).2.1 (by norm_num),
   ((clampSongTarget_bounds (.num 300)).2.2.1 300 rfl).2.2 (by norm_num) (by norm_num),
   (clampSongTarget_bounds .nan).2.2.2,
   (clampSongTarget_bounds (.num 50)).1⟩

/-- C9: for every `videoId` with no row in the songs store,
`GET /api/song/:videoId` succeeds (never the error branch) and returns the
default record `{videoId, snippetStart: 0, snippetLength: 30, lyrics: ''}`:
an unknown id is indistinguishable from an unsaved song. -/
theorem apiSongGet_unknown_id_default (store : SongStore) (videoId : String)
    (h : ∀ p ∈ store, p.1 ≠ videoId) :
    apiSongGetHandler store videoId = .ok ⟨videoId, 0, 30, ""⟩ ∧
    apiSongGetHandler store videoId ≠ .serverError := by
  have hfind : store.find? (fun p => p.1 == videoId) = none := by
    rw [List.find?_eq_none]
    intro p hp
    simpa using h p hp
  constructor
  · simp [apiSongGetHandler, getSong, hfind]
  · simp [apiSongGetHandler, getSong, hfind]

/-- Witness for C9: a store holding one saved song, queried for an id that
is not saved. -/
theorem apiSongGet_unknown_id_default_witness :
    apiSongGetHandler [("3JZ_D3ELwOQ", ⟨"3JZ_D3ELwOQ", 12, 45, "la la"⟩)]
        "hTWKbfoikeg" = .ok ⟨"hTWKbfoikeg", 0, 30, ""⟩ ∧
    apiSongGetHandler [("3JZ_D3ELwOQ", ⟨"3JZ_D3ELwOQ", 12, 45, "la la"⟩)]
        "hTWKbfoikeg" ≠ .serverError :=
  apiSongGet_unknown_id_default
    [("3JZ_D3ELwOQ", ⟨"3JZ_D3ELwOQ", 12, 45, "la la"⟩)] "hTWKbfoikeg"
    (by decide)

/-- C2: the Eligibility Filter's `checkDuration` rejects every Candidate
with `duration_seconds < 40` with reason `DurationTooShort`, passes every
Candidate with `duration_seconds ≥ 40` (boundary 40 passes), and its
verdict depends only on the duration — in particular it is independent of
any vocal score and, being a pure function, deterministic with no I/O. -/
theorem checkDuration_spec (c : Candidate) :
    (c.duration_seconds < 40 → checkDuration c = .reject .DurationTooShort) ∧
    (40 ≤ c.duration_seconds → checkDuration c = .pass) ∧
    (∀ c' : Candidate, c'.duration_seconds = c.duration_seconds →
      checkDuration c' = checkDuration c) := by
  refine ⟨fun h => ?_, fun h => ?_, fun c' h => ?_⟩
  · simp [checkDuration, h]
  · simp [checkDuration, not_lt.mpr h]
  · simp [checkDuration, h]

/-- Witness for C2: a 35-second candidate is rejected, a 45-second and a
boundary 40-second candidate pass. -/
theorem checkDuration_spec_witness :
    checkDuration ⟨"v35", "t", "u", 35, "r"⟩ = .reject .DurationTooShort ∧
    checkDuration ⟨"v45", "t", "u", 45, "r"⟩ = .pass ∧
    checkDuration ⟨"v40", "t", "u", 40, "r"⟩ = .pass :=
  ⟨(checkDuration_spec ⟨"v35", "t", "u", 35, "r"⟩).1 (by norm_num),
   (checkDuration_spec ⟨"v45", "t", "u", 45, "r"⟩).2.1 (by norm_num),
   (checkDuration_spec ⟨"v40", "t", "u", 40, "r"⟩).2.1 (by norm_num)⟩

/-- C6: every Segment the pipeline produces (hence every published one)
satisfies `40 ≤ end_sec - start_sec ≤ 60` and
`crossfade_ms * 2 < (end_sec - start_sec) * 1000`. -/
theorem segment_invariant (startSec endSec : ℚ) (cf : ℕ) (bpm : ℚ)
    (key : Fin 12) (lufs vs : ℚ) (seg : Segment)
    (h : mkSegment startSec endSec cf bpm key lufs vs = some seg) :
    40 ≤ seg.end_sec - seg.start_sec ∧ seg.end_sec - seg.start_sec ≤ 60 ∧
    (seg.crossfade_ms : ℚ) * 2 < (seg.end_sec - seg.start_sec) * 1000 := by
  unfold mkSegment at h
  split at h
  · next hcond =>
    obtain ⟨h40, h60, _, h80⟩ := hcond
    cases h
    refine ⟨h40, h60, ?_⟩
    have hcf : (cf : ℚ) ≤ 80 := by exact_mod_cast h80
    linarith
  · exact absurd h (by simp)

/-- Witness for C6: the concrete segment [10 s, 55 s] with a 50 ms
crossfade. -/
theorem segment_invariant_witness :
    40 ≤ (55 : ℚ) - 10 ∧ (55 : ℚ) - 10 ≤ 60 ∧
    ((50 : ℕ) : ℚ) * 2 < ((55 : ℚ) - 10) * 1000 :=
  segment_invariant 10 55 50 120 0 (-14) (1/2)
    ⟨10, 55, 50, 120, 0, -14, 1/2⟩
    (by simp [mkSegment]; norm_num)

/-- C5 (as stated) is false: the records produced by the playlist listing
operation carry only the keys `videoId`, `title`, `position` — there is no
uploader and no duration field. -/
theorem mappedItem_fields_cex :
    ¬ ("videoId" ∈ mappedItemFields ∧ "title" ∈ mappedItemFields ∧
       "uploader" ∈ mappedItemFields ∧ "duration_seconds" ∈ mappedItemFields) := by
  decide

/-- C5 amended: every record produced by the playlist listing operation
contains a source identifier (`videoId`) and a `title` (the API-mapped
records also a `position`), and contains neither an `uploader` nor a
duration field; the sample fallback records likewise carry only `videoId`
and `title`. -/
theorem mappedItem_fields_amended :
    "videoId" ∈ mappedItemFields ∧ "title" ∈ mappedItemFields ∧
    "position" ∈ mappedItemFields ∧ "uploader" ∉ mappedItemFields ∧
    "duration_seconds" ∉ mappedItemFields ∧
    "videoId" ∈ sampleItemFields ∧ "title" ∈ sampleItemFields ∧
    "uploader" ∉ sampleItemFields ∧ "duration_seconds" ∉ sampleItemFields := by
  decide

/-- A `takeWhile` over a list all of whose elements satisfy the predicate
keeps the whole list. -/
theorem takeWhile_eq_self_of_all {pred : Char → Bool} {l : List Char}
    (h : ∀ c ∈ l, pred c = true) : l.takeWhile pred = l := by
  induction l with
  | nil => rfl
  | cons c rest ih =>
    simp [List.takeWhile_cons, h c (List.mem_cons_self c rest),
      ih (fun x hx => h x (List.mem_cons_of_mem c hx))]

/-- Percent-decoding is the identity on escape-free input. -/
theorem tokenize_no_escape {l : List Char} (h : ∀ c ∈ l, c ≠ '%') :
    tokenize l = some (l.map DecTok.raw) := by
  induction l with
  | nil => rfl
  | cons c rest ih =>
    have hc : c ≠ '%' := h c (List.mem_cons_self c rest)
    have hr := ih (fun x hx => h x (List.mem_cons_of_mem c hx))
    rw [tokenize.eq_def]
    simp only [if_neg hc, hr]
    rfl

/-- Decoding a run of copied characters returns them unchanged. -/
theorem decodeToks_raw (l : List Char) :
    decodeToks (l.map DecTok.raw) = some l := by
  induction l with
  | nil => rfl
  | cons c rest ih =>
    show (decodeToks (rest.map DecTok.raw)).map (fun ds => c :: ds) = some (c :: rest)
    rw [ih]
    rfl

theorem percentDecode_no_escape {l : List Char} (h : ∀ c ∈ l, c ≠ '%') :
    percentDecode l = some l := by
  unfold percentDecode
  rw [tokenize_no_escape h]
  simp [decodeToks_raw]

/-- A successful `dropPat` means the pattern sits at the front. -/
theorem startsWith_of_dropPat {pat l after : List Char}
    (h : dropPat pat l = some after) : startsWith pat l = true := by
  induction pat generalizing l with
  | nil => rfl
  | cons p ps ih =>
    cases l with
    | nil => simp [dropPat] at h
    | cons c cs =>
      by_cases hpc : p = c
      · simp only [dropPat, if_pos hpc] at h
        simp [startsWith, hpc, ih h]
      · simp [dropPat, hpc] at h

/-- A pattern matching at the front occurs as a substring. -/
theorem containsSub_of_startsWith {pat l : List Char}
    (h : startsWith pat l = true) : containsSub pat l = true := by
  cases l with
  | nil => simpa [containsSub] using h
  | cons c cs => simp [containsSub, h]

/-- A regex match implies the `includes('list=')` guard held. -/
theorem containsSub_of_match {l cap : List Char}
    (h : firstListMatch l = some cap) : containsSub listEqChars l = true := by
  induction l with
  | nil => exact absurd h (by simp [firstListMatch])
  | cons c cs ih =>
    simp only [firstListMatch] at h
    split at h
    · split at h
      · next heq =>
        have hsw : startsWith listEqChars cs = true := by
          unfold captureAt at heq
          split at heq
          · exact absurd heq (by simp)
          · next hdrop => exact startsWith_of_dropPat hdrop
        have : containsSub listEqChars cs = true := containsSub_of_startsWith hsw
        simp [containsSub, this]
      · have := ih h
        simp [containsSub, this]
    · have := ih h
      simp [containsSub, this]

/-- A nonempty string has a nonempty character list. -/
theorem data_ne_nil_of_ne_empty {s : String} (h : s ≠ "") : s.data ≠ [] := by
  intro hd
  exact h (String.ext (hd.trans rfl))

/-- When the regex finds a capture and it decodes, `extractPlaylistId`
returns the decoded capture. -/
theorem extractPlaylistId_of_match {s : String} {cap d : List Char}
    (hs : s ≠ "") (hm : firstListMatch s.data = some cap)
    (hd : percentDecode cap = some d) :
    extractPlaylistId s = .ok (String.mk d) := by
  have hcs : containsSub listEqChars s.data = true := containsSub_of_match hm
  simp [extractPlaylistId, hs, hcs, hm, hd]

/-- On the standard playlist URL the regex captures exactly the appended
id, whenever the id is nonempty and free of `&` and `#`. -/
theorem firstListMatch_url {l : List Char}
    (h3 : ∀ c ∈ l, c ≠ '&' ∧ c ≠ '#') (h2 : l ≠ []) :
    firstListMatch ("https://www.youtube.com/playlist?list=".data ++ l) = some l := by
  have h1 : l.takeWhile (fun c => !(c = '&' || c = '#')) = l := by
    apply takeWhile_eq_self_of_all
    intro c hc
    simp [(h3 c hc).1, (h3 c hc).2]
  cases l with
  | nil => exact absurd rfl h2
  | cons c rest =>
    have hc := h3 c (List.mem_cons_self c rest)
    simp only [List.takeWhile_cons] at h1
    simp [firstListMatch, captureAt, dropPat, listEqChars, h1, hc.1, hc.2]
    intro x hx
    exact ⟨(h3 x (List.mem_cons_of_mem c hx)).1, (h3 x (List.mem_cons_of_mem c hx)).2⟩

/-- C10 (as stated) is false: `"?list=&x"` contains `list=` preceded by
`?`, and the substring between `list=` and the next `&` is empty, so the
claim demands the empty id; the regex capture `[^&#]+` needs at least one
character, fails to match, and the code returns the whole trimmed input. -/
theorem extractPlaylistId_cex :
    extractPlaylistId "?list=&x" = .ok "?list=&x" ∧
    (Except.ok "?list=&x" : Except URIError String) ≠ .ok "" :=
  ⟨rfl, by simp⟩

/-- When the regex finds a capture whose decoding throws, the `URIError`
escapes `extractPlaylistId`. -/
theorem extractPlaylistId_match_err {s : String} {cap : List Char}
    (hs : s ≠ "") (hm : firstListMatch s.data = some cap)
    (hd : percentDecode cap = none) :
    extractPlaylistId s = .error .malformed := by
  have hcs : containsSub listEqChars s.data = true := containsSub_of_match hm
  simp [extractPlaylistId, hs, hcs, hm, hd]

/-- Inputs on which the regex does not match are returned trimmed,
whether or not they contain `list=`. -/
theorem extractPlaylistId_no_match {t : String} (ht : t ≠ "")
    (hnm : firstListMatch t.data = none) :
    extractPlaylistId t = .ok (jsTrim t) := by
  by_cases hc : containsSub listEqChars t.data = true
  · simp [extractPlaylistId, ht, hc, hnm]
  · simp [extractPlaylistId, ht, hc]

/-- C10 amended: for a non-empty input on which `/[?&]list=([^&#]+)/`
matches (the id part is nonempty), `extractPlaylistId` returns the
capture of the first match URL-decoded when it decodes as well-formed
UTF-8, and throws `URIError` (which the route's catch turns into a 500)
when the capture holds a malformed escape or invalid UTF-8 — in
particular a full playlist URL with a nonempty id free of `&`, `#`, `%`
yields the bare id; every other non-empty input (no match) is returned
trimmed of surrounding whitespace; an empty input yields the empty
string. -/
theorem extractPlaylistId_amended (s₁ s₂ t p : String) :
    (s₁ ≠ "" → ∀ cap d : List Char, firstListMatch s₁.data = some cap →
      percentDecode cap = some d → extractPlaylistId s₁ = .ok (String.mk d)) ∧
    (s₂ ≠ "" → ∀ cap : List Char, firstListMatch s₂.data = some cap →
      percentDecode cap = none → extractPlaylistId s₂ = .error .malformed) ∧
    (p ≠ "" → (∀ c ∈ p.data, c ≠ '&' ∧ c ≠ '#' ∧ c ≠ '%') →
      extractPlaylistId ("https://www.youtube.com/playlist?list=" ++ p) = .ok p) ∧
    (t ≠ "" → firstListMatch t.data = none →
      extractPlaylistId t = .ok (jsTrim t)) ∧
    extractPlaylistId "" = .ok "" := by
  refine ⟨fun hs cap d hm hd => extractPlaylistId_of_match hs hm hd,
    fun hs cap hm hd => extractPlaylistId_match_err hs hm hd,
    fun hp hchars => ?_,
    fun ht hnm => extractPlaylistId_no_match ht hnm, rfl⟩
  have hne : ("https://www.youtube.com/playlist?list=" ++ p) ≠ "" := by
    intro h
    have hd := congrArg String.data h
    rw [show ("https://www.youtube.com/playlist?list=" ++ p).data =
      "https://www.youtube.com/playlist?list=".data ++ p.data from rfl] at hd
    rcases List.append_eq_nil.mp hd with ⟨h1, _⟩
    exact absurd h1 (by decide)
  have hm : firstListMatch ("https://www.youtube.com/playlist?list=" ++ p).data =
      some p.data := by
    rw [show ("https://www.youtube.com/playlist?list=" ++ p).data =
      "https://www.youtube.com/playlist?list=".data ++ p.data from rfl]
    exact firstListMatch_url
      (fun c hc => ⟨(hchars c hc).1, (hchars c hc).2.1⟩)
      (data_ne_nil_of_ne_empty hp)
  have hd : percentDecode p.data = some p.data :=
    percentDecode_no_escape (fun c hc => (hchars c hc).2.2)
  have := extractPlaylistId_of_match hne hm hd
  rwa [show String.mk p.data = p from String.ext rfl] at this

/-- Witness for the amended C10: an escaped UTF-8 id that decodes, an
invalid escape that throws, the repository's own playlist URL, a padded
bare id, and the empty input. -/
theorem extractPlaylistId_amended_witness :
    extractPlaylistId "?list=caf%C3%A9" = .ok "café" ∧
    extractPlaylistId "?list=%FF" = .error .malformed ∧
    extractPlaylistId
        "https://www.youtube.com/playlist?list=PL2vNBvHyEXihiuQ2htu6rLcOjw7lzsKcD" =
      .ok "PL2vNBvHyEXihiuQ2htu6rLcOjw7lzsKcD" ∧
    extractPlaylistId " PLabc " = .ok (jsTrim " PLabc ") ∧
    extractPlaylistId "" = .ok "" :=
  ⟨(extractPlaylistId_amended "?list=caf%C3%A9" "?list=%FF" " PLabc "
      "PL2vNBvHyEXihiuQ2htu6rLcOjw7lzsKcD").1
      (by decide) ("caf%C3%A9".data) ("café".data) rfl rfl,
   (extractPlaylistId_amended "?list=caf%C3%A9" "?list=%FF" " PLabc "
      "PL2vNBvHyEXihiuQ2htu6rLcOjw7lzsKcD").2.1
      (by decide) ("%FF".data) rfl rfl,
   (extractPlaylistId_amended "?list=caf%C3%A9" "?list=%FF" " PLabc "
      "PL2vNBvHyEXihiuQ2htu6rLcOjw7lzsKcD").2.2.1 (by decide) (by decide),
   (extractPlaylistId_amended "?list=caf%C3%A9" "?list=%FF" " PLabc "
      "PL2vNBvHyEXihiuQ2htu6rLcOjw7lzsKcD").2.2.2.1 (by decide) rfl,
   (extractPlaylistId_amended "?list=caf%C3%A9" "?list=%FF" " PLabc "
      "PL2vNBvHyEXihiuQ2htu6rLcOjw7lzsKcD").2.2.2.2⟩

/-- Loop exit when the `while` condition already fails: return the slice. -/
theorem fetchGo_stop {u : String → PageResp} {target : ℚ} {fuel : ℕ}
    {tok : String} {acc : List MappedItem}
    (h : ¬ ((acc.length : ℚ) < target)) :
    fetchGo u target fuel tok acc = some (.ok (acc.take (jsSliceBound target))) := by
  rw [fetchGo.eq_def]
  simp [h]

/-- Out of fuel inside the loop: the run is not yet terminated. -/
theorem fetchGo_zero {u : String → PageResp} {target : ℚ} {tok : String}
    {acc : List MappedItem} (h : (acc.length : ℚ) < target) :
    fetchGo u target 0 tok acc = none := by
  rw [fetchGo.eq_def]
  simp [h]

/-- A failing page request surfaces the fetch error. -/
theorem fetchGo_err {u : String → PageResp} {target : ℚ} {fuel₀ : ℕ}
    {tok : String} {acc : List MappedItem}
    (hlt : (acc.length : ℚ) < target) (he : u tok = .err) :
    fetchGo u target (fuel₀ + 1) tok acc = some (.error .fetchError) := by
  rw [fetchGo.eq_def]
  simp [hlt, he]

/-- A page without `nextPageToken` ends the loop with the slice. -/
theorem fetchGo_page_last {u : String → PageResp} {target : ℚ} {fuel₀ : ℕ}
    {tok : String} {acc : List MappedItem} {its : List RawItem}
    (hlt : (acc.length : ℚ) < target) (hp : u tok = .ok its none) :
    fetchGo u target (fuel₀ + 1) tok acc =
      some (.ok ((acc ++ its.map mapItem).take (jsSliceBound target))) := by
  rw [fetchGo.eq_def]
  simp [hlt, hp]

/-- A page that reaches the target ends the loop with the slice. -/
theorem fetchGo_page_full {u : String → PageResp} {target : ℚ} {fuel₀ : ℕ}
    {tok t : String} {acc : List MappedItem} {its : List RawItem}
    (hlt : (acc.length : ℚ) < target) (hp : u tok = .ok its (some t))
    (hfull : target ≤ ((acc ++ its.map mapItem).length : ℚ)) :
    fetchGo u target (fuel₀ + 1) tok acc =
      some (.ok ((acc ++ its.map mapItem).take (jsSliceBound target))) := by
  rw [fetchGo.eq_def]
  simp [hlt, hp, hfull]
  intro hcontra
  exfalso
  simp only [List.length_append, List.length_map, Nat.cast_add] at hfull
  linarith

/-- A page below the target with a token continues with the next page. -/
theorem fetchGo_page_cont {u : String → PageResp} {target : ℚ} {fuel₀ : ℕ}
    {tok t : String} {acc : List MappedItem} {its : List RawItem}
    (hlt : (acc.length : ℚ) < target) (hp : u tok = .ok its (some t))
    (hcont : ¬ (target ≤ ((acc ++ its.map mapItem).length : ℚ))) :
    fetchGo u target (fuel₀ + 1) tok acc =
      fetchGo u target fuel₀ t (acc ++ its.map mapItem) := by
  rw [fetchGo.eq_def]
  simp [hlt, hp, hcont]
  intro hcontra
  exfalso
  simp only [List.length_append, List.length_map, Nat.cast_add] at hcont
  linarith

/-- Helper bound used by the fetch proofs (independent of the C8 claim
theorem): the clamped target never exceeds 800. -/
theorem clampSongTarget_le (x : JsNum) : clampSongTarget x ≤ 800 := by
  cases x with
  | nan => norm_num [clampSongTarget]
  | num q => exact min_le_right _ _

/-- C3 (as stated) is false: against an upstream that answers every token
with an empty page carrying a `nextPageToken`, the pagination loop of
`fetchPlaylistItemsFromYouTube` never terminates — `items.length` never
grows while the `while` condition stays true, so no amount of fuel
produces a result (with the default clamped target of 100). -/
theorem fetch_termination_cex :
    ¬ ∃ (fuel : ℕ) (res : Except FetchErr FetchOutput),
      fetchPlaylistItemsFromYouTube true (fun _ => PageResp.ok [] (some "t"))
        (clampSongTarget .nan) fuel = some res := by
  rintro ⟨fuel, res, h⟩
  have key : ∀ (f : ℕ) (tok : String) (acc : List MappedItem),
      (acc.length : ℚ) < 100 →
      fetchGo (fun _ => PageResp.ok [] (some "t")) 100 f tok acc = none := by
    intro f
    induction f with
    | zero => intro tok acc hlt; exact fetchGo_zero hlt
    | succ n ih =>
      intro tok acc hlt
      have hcont : ¬ ((100 : ℚ) ≤ ((acc ++ (List.map mapItem [])).length : ℚ)) := by
        simp only [List.map_nil, List.append_nil]
        exact not_le.mpr hlt
      rw [fetchGo_page_cont hlt rfl hcont]
      simpa using ih "t" (acc ++ List.map mapItem []) (by simpa using hlt)
  have h100 : clampSongTarget .nan = 100 := rfl
  rw [h100] at h
  unfold fetchPlaylistItemsFromYouTube at h
  rw [if_pos rfl, key fuel "" [] (by norm_num)] at h
  exact absurd h (by simp)

/-- Each successful `fetchGo` result is the `targetCount`-slice of the
mapped items of the page chain followed from the start token, appended to
the starting accumulator — i.e. items come out in playlist order. -/
theorem fetchGo_order {u : String → PageResp} {target : ℚ} :
    ∀ (fuel : ℕ) (tok : String) (acc out : List MappedItem),
      fetchGo u target fuel tok acc = some (.ok out) →
      ∃ n, out = (acc ++ chainItems u n tok).take (jsSliceBound target) := by
  intro fuel
  induction fuel with
  | zero =>
    intro tok acc out h
    by_cases hlt : (acc.length : ℚ) < target
    · rw [fetchGo_zero hlt] at h
      exact absurd h (by simp)
    · rw [fetchGo_stop hlt] at h
      refine ⟨0, ?_⟩
      simp only [Option.some.injEq, Except.ok.injEq] at h
      simp [chainItems, ← h]
  | succ n ih =>
    intro tok acc out h
    by_cases hlt : (acc.length : ℚ) < target
    · cases hu : u tok with
      | err =>
        rw [fetchGo_err hlt hu] at h
        exact absurd h (by simp)
      | ok its next =>
        cases next with
        | none =>
          rw [fetchGo_page_last hlt hu] at h
          refine ⟨1, ?_⟩
          simp only [Option.some.injEq, Except.ok.injEq] at h
          simp [chainItems, hu, ← h]
        | some t =>
          by_cases hfull : target ≤ ((acc ++ its.map mapItem).length : ℚ)
          · rw [fetchGo_page_full hlt hu hfull] at h
            refine ⟨1, ?_⟩
            simp only [Option.some.injEq, Except.ok.injEq] at h
            simp [chainItems, hu, ← h, List.append_assoc]
          · rw [fetchGo_page_cont hlt hu hfull] at h
            obtain ⟨m, hm⟩ := ih t (acc ++ its.map mapItem) out h
            refine ⟨m + 1, ?_⟩
            simp [chainItems, hu, hm, List.append_assoc]
    · rw [fetchGo_stop hlt] at h
      refine ⟨0, ?_⟩
      simp only [Option.some.injEq, Except.ok.injEq] at h
      simp [chainItems, ← h]

/-- If every successfully fetched page is nonempty, `fuel ≥ target -
items.length` page requests suffice for the loop to terminate. -/
theorem fetchGo_terminates {u : String → PageResp}
    (hne : ∀ tok its next, u tok = .ok its next → its ≠ []) (target : ℚ) :
    ∀ (fuel : ℕ) (tok : String) (acc : List MappedItem),
      target ≤ (acc.length : ℚ) + fuel →
      ∃ res, fetchGo u target fuel tok acc = some res := by
  intro fuel
  induction fuel with
  | zero =>
    intro tok acc hb
    have hstop : ¬ ((acc.length : ℚ) < target) := by
      push_cast at hb
      linarith
    exact ⟨_, fetchGo_stop hstop⟩
  | succ n ih =>
    intro tok acc hb
    by_cases hlt : (acc.length : ℚ) < target
    · cases hu : u tok with
      | err => exact ⟨_, fetchGo_err hlt hu⟩
      | ok its next =>
        cases next with
        | none => exact ⟨_, fetchGo_page_last hlt hu⟩
        | some t =>
          by_cases hfull : target ≤ ((acc ++ its.map mapItem).length : ℚ)
          · exact ⟨_, fetchGo_page_full hlt hu hfull⟩
          · have hits : its ≠ [] := hne tok its (some t) hu
            have hlen : acc.length + 1 ≤ (acc ++ its.map mapItem).length := by
              simp only [List.length_append, List.length_map]
              have : 0 < its.length := List.length_pos.mpr hits
              omega
            have hb2 : target ≤ (((acc ++ its.map mapItem).length : ℕ) : ℚ) + n := by
              have hcast : ((acc.length : ℚ) + 1) ≤
                  (((acc ++ its.map mapItem).length : ℕ) : ℚ) := by
                exact_mod_cast hlen
              push_cast at hb ⊢
              push_cast at hcast
              linarith
            obtain ⟨res, hres⟩ := ih t (acc ++ its.map mapItem) hb2
            exact ⟨res, (fetchGo_page_cont hlt hu hfull).trans hres⟩
    · exact ⟨_, fetchGo_stop hlt⟩

/-- C3 amended: for every upstream whose pages each contain at least one
item, the playlist fetch terminates — 800 page requests (the maximum
clamped target) always suffice — and every successful result is a finite
list, the `targetCount`-prefix of the mapped items of the followed page
chain, in playlist order; without an API key the fetch immediately
returns the finite sample playlist. -/
theorem fetch_terminates_in_order (u : String → PageResp) (maxSongs : JsNum)
    (hne : ∀ tok its next, u tok = .ok its next → its ≠ []) :
    (∃ res, fetchPlaylistItemsFromYouTube true u (clampSongTarget maxSongs) 800 =
      some res) ∧
    (∀ fuel out,
      fetchPlaylistItemsFromYouTube true u (clampSongTarget maxSongs) fuel =
          some (.ok (.fetched out)) →
      ∃ n, out = (chainItems u n "").take (jsSliceBound (clampSongTarget maxSongs))) ∧
    fetchPlaylistItemsFromYouTube false u (clampSongTarget maxSongs) 800 =
      some (.ok (.sample SAMPLE_PLAYLIST)) := by
  refine ⟨?_, ?_, rfl⟩
  · have hb : clampSongTarget maxSongs ≤ (([] : List MappedItem).length : ℚ) + 800 := by
      have := clampSongTarget_le maxSongs
      simp only [List.length_nil, Nat.cast_zero]
      linarith
    obtain ⟨res, hres⟩ := fetchGo_terminates hne (clampSongTarget maxSongs) 800 "" [] hb
    refine ⟨res.map FetchOutput.fetched, ?_⟩
    unfold fetchPlaylistItemsFromYouTube
    rw [if_pos rfl, hres]
    rfl
  · intro fuel out h
    unfold fetchPlaylistItemsFromYouTube at h
    rw [if_pos rfl] at h
    cases hg : fetchGo u (clampSongTarget maxSongs) fuel "" [] with
    | none => rw [hg] at h; exact absurd h (by simp)
    | some r =>
      rw [hg] at h
      cases r with
      | error e => exact absurd h (by simp [Except.map])
      | ok l =>
        have hl : l = out := by
          simpa [Except.map] using h
        subst hl
        obtain ⟨n, hn⟩ := fetchGo_order fuel "" [] l hg
        exact ⟨n, by simpa using hn⟩

/-- Witness for the amended C3: a single-page upstream with one item. -/
theorem fetch_terminates_in_order_witness :
    (∃ res, fetchPlaylistItemsFromYouTube true
        (fun _ => PageResp.ok [⟨"v1", "t1", 0⟩] none) (clampSongTarget .nan) 800 =
      some res) ∧
    (∀ fuel out,
      fetchPlaylistItemsFromYouTube true
          (fun _ => PageResp.ok [⟨"v1", "t1", 0⟩] none) (clampSongTarget .nan) fuel =
          some (.ok (.fetched out)) →
      ∃ n, out = (chainItems (fun _ => PageResp.ok [⟨"v1", "t1", 0⟩] none) n "").take
        (jsSliceBound (clampSongTarget .nan))) ∧
    fetchPlaylistItemsFromYouTube false
        (fun _ => PageResp.ok [⟨"v1", "t1", 0⟩] none) (clampSongTarget .nan) 800 =
      some (.ok (.sample SAMPLE_PLAYLIST)) :=
  fetch_terminates_in_order (fun _ => PageResp.ok [⟨"v1", "t1", 0⟩] none) .nan
    (by
      intro tok its next h
      cases h
      simp)

/-- C4 (as stated) is false: with an upstream whose first page yields one
item and whose second page request fails, the fetch throws `FetchError`
and the route answers the 500 error response — the item from the page
already retrieved is not available to the caller (the accumulated array is
discarded when the exception propagates). -/
theorem fetch_partial_results_cex :
    fetchPlaylistItemsFromYouTube true
        (fun tok => if tok = "" then PageResp.ok [⟨"v1", "t1", 0⟩] (some "p2")
          else .err)
        (clampSongTarget .nan) 5 = some (.error .fetchError) ∧
    apiPlaylistHandler true
        (fun tok => if tok = "" then PageResp.ok [⟨"v1", "t1", 0⟩] (some "p2")
          else .err)
        "PLabc" .nan 5 = some .serverError ∧
    responseItems .serverError = none :=
  ⟨rfl, rfl, rfl⟩

/-- C4 amended: when an upstream page request fails during a playlist
fetch, the fetch fails with `FetchError` and the caller of
`GET /api/playlist` receives the 500 error response with no items — the
candidate items from pages already retrieved are discarded, not preserved. -/
theorem fetch_failure_discards_partial (u : String → PageResp) (pid : String)
    (maxSongs : JsNum) (fuel : ℕ) (req : String) (e : FetchErr)
    (hreq : extractPlaylistId pid = .ok req) (hne : req ≠ "")
    (hf : fetchPlaylistItemsFromYouTube true u (clampSongTarget maxSongs) fuel =
      some (.error e)) :
    apiPlaylistHandler true u pid maxSongs fuel = some .serverError ∧
    (apiPlaylistHandler true u pid maxSongs fuel).bind responseItems = none := by
  have hh : apiPlaylistHandler true u pid maxSongs fuel = some .serverError := by
    simp [apiPlaylistHandler, hreq, hne, hf]
  exact ⟨hh, by rw [hh]; rfl⟩

/-- Witness for the amended C4: the two-page upstream whose second request
fails. -/
theorem fetch_failure_discards_partial_witness :
    apiPlaylistHandler true
        (fun tok => if tok = "" then PageResp.ok [⟨"w1", "s1", 0⟩] (some "p2")
          else .err)
        "PLxyz" .nan 5 = some .serverError ∧
    (apiPlaylistHandler true
        (fun tok => if tok = "" then PageResp.ok [⟨"w1", "s1", 0⟩] (some "p2")
          else .err)
        "PLxyz" .nan 5).bind responseItems = none :=
  fetch_failure_discards_partial
    (fun tok => if tok = "" then PageResp.ok [⟨"w1", "s1", 0⟩] (some "p2")
      else .err)
    "PLxyz" .nan 5 "PLxyz" .fetchError rfl (by simp) rfl

/-- Reconciliation never touches the rights store. -/
theorem rightsOf_reconcile (s : PipelineState) (id : String) :
    rightsOf (reconcile s) id = rightsOf s id := rfl

/-- After any reconciliation cycle, a published id reads `cleared`. -/
theorem isPublished_cycle_cleared {s : PipelineState} {e : PipelineEvent}
    {id : String} (h : isPublished (cycleStep s e) id = true) :
    rightsOf (cycleStep s e) id = some .cleared := by
  unfold cycleStep reconcile isPublished at h
  have hmem := List.mem_of_elem_eq_true h
  have hpred := (List.mem_filter.mp hmem).2
  rw [beq_iff_eq] at hpred
  show rightsOf (applyEvent s e) id = some .cleared
  exact hpred

/-- The rights-gating half of the catalog invariant, over any trace. -/
theorem published_runPipeline_cleared (evs : List PipelineEvent) (id : String)
    (h : isPublished (runPipeline evs) id = true) :
    rightsOf (runPipeline evs) id = some .cleared := by
  have aux : ∀ (l : List PipelineEvent) (s : PipelineState),
      (isPublished s id = true → rightsOf s id = some .cleared) →
      isPublished (l.foldl cycleStep s) id = true →
      rightsOf (l.foldl cycleStep s) id = some .cleared := by
    intro l
    induction l with
    | nil => intro s hs; exact hs
    | cons e rest ih =>
      intro s _
      exact ih (cycleStep s e) (fun hp => isPublished_cycle_cleared hp)
  refine aux evs initState (fun hp => ?_) h
  exact absurd hp (by simp [isPublished, initState])

/-- The rights record the external action writes for its own id. -/
theorem rightsOf_setLicense_self (s : PipelineState) (id : String)
    (st : LicenseState) :
    rightsOf (applyEvent s (.setLicenseState id st)) id =
      if (rightsOf s id).isSome then some st else none := by
  simp only [applyEvent]
  by_cases h : (rightsOf s id).isSome
  · rw [if_pos h, if_pos h]
    unfold rightsOf
    rw [List.find?_cons_of_pos _ (by simp)]
    rfl
  · rw [if_neg h, if_neg h]
    exact Option.not_isSome_iff_eq_none.mp h

/-- Downgrading a record to any non-`cleared` state removes its catalog
entry within the same reconciliation cycle. -/
theorem downgrade_unpublishes (s : PipelineState) (id : String)
    (st : LicenseState) (hst : st ≠ .cleared) :
    isPublished (cycleStep s (.setLicenseState id st)) id = false := by
  unfold cycleStep reconcile isPublished
  by_contra hc
  rw [Bool.not_eq_false] at hc
  have hmem := List.mem_of_elem_eq_true hc
  have hpred := (List.mem_filter.mp hmem).2
  rw [beq_iff_eq, rightsOf_setLicense_self] at hpred
  by_cases h : (rightsOf s id).isSome
  · rw [if_pos h] at hpred
    exact hst (by injection hpred)
  · rw [if_neg h] at hpred
    exact absurd hpred (by simp)

/-- C1: the rights-gating invariant holds at every reachable
(cycle-boundary) state of the system: a CatalogEntry exists for a
`source_id` only while its current `RightsRecord.license_state` is
`cleared`; and downgrading a cleared record results in its CatalogEntry
being unpublished within one reconciliation cycle. -/
theorem rights_gating_invariant (evs : List PipelineEvent) (id : String)
    (st : LicenseState) :
    (isPublished (runPipeline evs) id = true →
      rightsOf (runPipeline evs) id = some .cleared) ∧
    (st ≠ .cleared →
      isPublished (cycleStep (runPipeline evs) (.setLicenseState id st)) id
        = false) :=
  ⟨published_runPipeline_cleared evs id,
   downgrade_unpublishes (runPipeline evs) id st⟩

/-- Witness for C1: ingest, clear, publish — the entry exists and reads
`cleared`; a later downgrade to `restricted` unpublishes it in one cycle. -/
theorem rights_gating_invariant_witness :
    isPublished (runPipeline
      [.ingest "a", .setLicenseState "a" .cleared, .publish "a" true]) "a"
      = true ∧
    rightsOf (runPipeline
      [.ingest "a", .setLicenseState "a" .cleared, .publish "a" true]) "a"
      = some .cleared ∧
    isPublished (cycleStep (runPipeline
      [.ingest "a", .setLicenseState "a" .cleared, .publish "a" true])
      (.setLicenseState "a" .restricted)) "a" = false :=
  ⟨rfl,
   (rights_gating_invariant
      [.ingest "a", .setLicenseState "a" .cleared, .publish "a" true]
      "a" .restricted).1 rfl,
   (rights_gating_invariant
      [.ingest "a", .setLicenseState "a" .cleared, .publish "a" true]
      "a" .restricted).2 (by decide)⟩

/-- Dropping the entries of a different key does not change a keyed
lookup. -/
theorem find?_key_filter_ne (l : List (String × LicenseState)) (id pid : String)
    (hne : id ≠ pid) :
    (l.filter (fun p => p.1 != pid)).find? (fun p => p.1 == id) =
      l.find? (fun p => p.1 == id) := by
  induction l with
  | nil => rfl
  | cons a rest ih =>
    by_cases ha : a.1 = pid
    · rw [List.filter_cons_of_neg (by simp [ha]), ih,
        List.find?_cons_of_neg _ (by simp [ha]; exact fun hh => hne hh.symm)]
    · rw [List.filter_cons_of_pos (by simp [ha])]
      by_cases hid : a.1 = id
      · rw [List.find?_cons_of_pos _ (by simp [hid]),
          List.find?_cons_of_pos _ (by simp [hid])]
      · rw [List.find?_cons_of_neg _ (by simp [hid]),
          List.find?_cons_of_neg _ (by simp [hid])]
        exact ih

/-- `publish` touches only the catalog, never the rights store. -/
theorem rightsOf_apply_publish (s : PipelineState) (id pid : String) (qa : Bool) :
    rightsOf (applyEvent s (.publish pid qa)) id = rightsOf s id := by
  simp only [applyEvent]
  split <;> rfl

/-- `unpublish` touches only the catalog, never the rights store. -/
theorem rightsOf_apply_unpublish (s : PipelineState) (id pid : String) :
    rightsOf (applyEvent s (.unpublish pid)) id = rightsOf s id := rfl

/-- Core events keep every rights record absent or `pending_clearance`. -/
theorem rightsOf_cycle_core (s : PipelineState) (e : PipelineEvent) (id : String)
    (hc : isCoreEvent e = true)
    (h : rightsOf s id = none ∨ rightsOf s id = some .pending_clearance) :
    rightsOf (cycleStep s e) id = none ∨
      rightsOf (cycleStep s e) id = some .pending_clearance := by
  have hr : rightsOf (cycleStep s e) id = rightsOf (applyEvent s e) id := rfl
  rw [hr]
  cases e with
  | ingest pid =>
    simp only [applyEvent]
    by_cases hs : (rightsOf s pid).isSome
    · rw [if_pos hs]; exact h
    · rw [if_neg hs]
      unfold rightsOf
      by_cases hid : pid = id
      · rw [List.find?_cons_of_pos _ (by simp [hid])]
        exact Or.inr rfl
      · rw [List.find?_cons_of_neg _ (by simp [hid])]
        exact h
  | publish pid qa => rw [rightsOf_apply_publish]; exact h
  | unpublish pid => rw [rightsOf_apply_unpublish]; exact h
  | setLicenseState pid st => simp [isCoreEvent] at hc

/-- No event ever deletes a rights record. -/
theorem rightsOf_cycle_isSome (s : PipelineState) (e : PipelineEvent)
    (id : String) (h : rightsOf s id ≠ none) :
    rightsOf (cycleStep s e) id ≠ none := by
  have hr : rightsOf (cycleStep s e) id = rightsOf (applyEvent s e) id := rfl
  rw [hr]
  cases e with
  | ingest pid =>
    simp only [applyEvent]
    by_cases hs : (rightsOf s pid).isSome
    · rw [if_pos hs]; exact h
    · rw [if_neg hs]
      unfold rightsOf at h ⊢
      by_cases hid : pid = id
      · rw [List.find?_cons_of_pos _ (by simp [hid])]
        simp
      · rw [List.find?_cons_of_neg _ (by simp [hid])]
        exact h
  | publish pid qa => rw [rightsOf_apply_publish]; exact h
  | unpublish pid => rw [rightsOf_apply_unpublish]; exact h
  | setLicenseState pid st =>
    simp only [applyEvent]
    by_cases hs : (rightsOf s pid).isSome
    · rw [if_pos hs]
      unfold rightsOf at h ⊢
      by_cases hid : pid = id
      · rw [List.find?_cons_of_pos _ (by simp [hid])]
        simp
      · rw [List.find?_cons_of_neg _ (by simp [hid]),
          find?_key_filter_ne s.rights id pid (fun hh => hid hh.symm)]
        exact h
    · rw [if_neg hs]; exact h

/-- Ingesting an id leaves its rights record present. -/
theorem rightsOf_cycle_ingest_self (s : PipelineState) (id : String) :
    rightsOf (cycleStep s (.ingest id)) id ≠ none := by
  have hr : rightsOf (cycleStep s (.ingest id)) id =
      rightsOf (applyEvent s (.ingest id)) id := rfl
  rw [hr]
  simp only [applyEvent]
  by_cases hs : (rightsOf s id).isSome
  · rw [if_pos hs]
    intro hn
    rw [hn] at hs
    simp at hs
  · rw [if_neg hs]
    unfold rightsOf
    rw [List.find?_cons_of_pos _ (by simp)]
    simp

/-- C7: every RightsRecord is created at ingestion in `pending_clearance`
(the only initial state), and along any trace of events performed by the
core itself no record is ever moved to any other state — in particular the
core never transitions a record to `cleared`; only the external
`setLicenseState` action (excluded by the hypothesis) can do so. -/
theorem rights_state_machine_core (evs : List PipelineEvent) (id : String)
    (hcore : ∀ e ∈ evs, isCoreEvent e = true) :
    (rightsOf (runPipeline evs) id = none ∨
     rightsOf (runPipeline evs) id = some .pending_clearance) ∧
    (PipelineEvent.ingest id ∈ evs →
      rightsOf (runPipeline evs) id = some .pending_clearance) := by
  have hmain : ∀ (l : List PipelineEvent) (s : PipelineState),
      (∀ e ∈ l, isCoreEvent e = true) →
      (rightsOf s id = none ∨ rightsOf s id = some .pending_clearance) →
      ((rightsOf (l.foldl cycleStep s) id = none ∨
        rightsOf (l.foldl cycleStep s) id = some .pending_clearance) ∧
       (PipelineEvent.ingest id ∈ l →
        rightsOf (l.foldl cycleStep s) id ≠ none) ∧
       (rightsOf s id ≠ none → rightsOf (l.foldl cycleStep s) id ≠ none)) := by
    intro l
    induction l with
    | nil =>
      intro s _ h
      exact ⟨h, by simp, fun hn => hn⟩
    | cons e rest ih =>
      intro s hco h
      have hce : isCoreEvent e = true := hco e (List.mem_cons_self e rest)
      have hrest : ∀ x ∈ rest, isCoreEvent x = true :=
        fun x hx => hco x (List.mem_cons_of_mem e hx)
      obtain ⟨ha, hb, hkeep⟩ :=
        ih (cycleStep s e) hrest (rightsOf_cycle_core s e id hce h)
      refine ⟨ha, ?_, fun hn => hkeep (rightsOf_cycle_isSome s e id hn)⟩
      intro hmem
      rcases List.mem_cons.mp hmem with he | hm
      · subst he
        exact hkeep (rightsOf_cycle_ingest_self s id)
      · exact hb hm
  obtain ⟨h1, h2, _⟩ := hmain evs initState hcore (Or.inl rfl)
  refine ⟨h1, fun hm => ?_⟩
  rcases h1 with h | h
  · exact absurd h (h2 hm)
  · exact h

/-- Witness for C7: a core-only trace ingesting `"a"`, attempting a
publish (refused: not cleared) and an unpublish — the record stays in
`pending_clearance`. -/
theorem rights_state_machine_core_witness :
    rightsOf (runPipeline
      [.ingest "a", .publish "a" true, .unpublish "a"]) "a" =
      some .pending_clearance :=
  (rights_state_machine_core
    [.ingest "a", .publish "a" true, .unpublish "a"] "a" (by decide)).2
    (by decide)
